import Mathlib

/-!
Shallow embedding of the hhof backend core: `csv_repository.py`,
`llm_processor.py`, `llm_service.py` and `eurlex_scraper.py`.

Modelling conventions:
* Python `str` is modelled as Lean `String` (a sequence of unicode code
  points; Python `len`/slicing count code points exactly like
  `String.length`/`List.take` on `String.data`).
* Wall-clock timestamps are passed in as a pre-formatted string `now`
  (the code calls `datetime.now().strftime(DATE_FORMAT)`).
* The CSV file itself is abstracted to the list of stored rows; the
  atomic temp-file-and-rename write of `_write_all_documents` is modelled
  by a boolean `writeOk` (`true` = the write succeeds, `false` = it
  raises `IOError`).
* LLM calls are oracles passed in as functions; a call that raises is an
  oracle returning `Except.error ()`.
-/

/- ------------------------------------------------------------------ -/
/- Basic Python string helpers                                         -/
/- ------------------------------------------------------------------ -/

/-- Whitespace test used by Python `str.strip()` (the ASCII whitespace
characters; the repository's data never carries the exotic unicode
spaces). -/
def pyIsSpace (c : Char) : Bool :=
  c = ' ' || c = '\t' || c = '\n' || c = '\r' || c = '\x0b' || c = '\x0c'

/-- Strip the characters satisfying `p` from both ends of a character
list (Python `str.strip(chars)`). -/
def pyStripWith (p : Char → Bool) (l : List Char) : List Char :=
  ((l.dropWhile p).reverse.dropWhile p).reverse

/-- Python `str.strip()` on character lists. -/
def pyStripL (l : List Char) : List Char := pyStripWith pyIsSpace l

/-- Python `str.strip()` on strings. -/
def pyStrip (s : String) : String := ⟨pyStripL s.data⟩

/-- Model of Python `str.lower` on one character, covering ASCII and the
Latin-1 uppercase range (every character occurring in the repository's
vocabulary lists is ASCII or pre-lowercased Latin-1, so this agrees with
Python there). -/
def pyLowerChar (c : Char) : Char :=
  if 'A' ≤ c ∧ c ≤ 'Z' then Char.ofNat (c.toNat + 32)
  else if 0xC0 ≤ c.toNat ∧ c.toNat ≤ 0xDE ∧ c.toNat ≠ 0xD7 then Char.ofNat (c.toNat + 32)
  else c

/-- Python `str.lower` on character lists. -/
def pyLowerL (l : List Char) : List Char := l.map pyLowerChar

/-- Python `str.lower` on strings. -/
def pyLower (s : String) : String := ⟨pyLowerL s.data⟩

/-- Does the second list start with the first? (helper for substring
containment). -/
def startsWithL : List Char → List Char → Bool
  | [], _ => true
  | _ :: _, [] => false
  | a :: as, b :: bs => a == b && startsWithL as bs

/-- Python substring containment `needle in hay`. -/
def containsSubL (needle : List Char) : List Char → Bool
  | [] => needle.isEmpty
  | c :: rest => startsWithL needle (c :: rest) || containsSubL needle rest

/- ------------------------------------------------------------------ -/
/- csv_repository.py : newline escaping                                -/
/- ------------------------------------------------------------------ -/

/-- Python `str.replace(pattern, repl)` for a one-character pattern
(used with pattern `'\n'` / `'\r'` and two-character replacements). -/
def replaceCharL (c : Char) (repl : List Char) : List Char → List Char
  | [] => []
  | x :: rest => (if x = c then repl else [x]) ++ replaceCharL c repl rest

/-- Python `str.replace(pattern, r)` for a two-character pattern `a b`
and a one-character replacement `r`; scans left to right over
non-overlapping occurrences, exactly like CPython. -/
def replacePairL (a b r : Char) : List Char → List Char
  | [] => []
  | [x] => [x]
  | x :: y :: rest =>
    if x = a ∧ y = b then r :: replacePairL a b r rest
    else x :: replacePairL a b r (y :: rest)

/-- The character-list body of `_escape_newlines`:
`text.replace('\n', '\\n').replace('\r', '\\r')`. -/
def escL (l : List Char) : List Char :=
  replaceCharL '\r' ['\\', 'r'] (replaceCharL '\n' ['\\', 'n'] l)

/-- The character-list body of `_unescape_newlines`:
`text.replace('\\n', '\n').replace('\\r', '\r')`. -/
def unescL (l : List Char) : List Char :=
  replacePairL '\\' 'r' '\r' (replacePairL '\\' 'n' '\n' l)

/-- `CSVDocumentRepository._escape_newlines` (csv_repository.py:68-72). -/
def escape_newlines (s : String) : String := ⟨escL s.data⟩

/-- `CSVDocumentRepository._unescape_newlines` (csv_repository.py:74-78). -/
def unescape_newlines (s : String) : String := ⟨unescL s.data⟩

/-- The per-field read-back of a free-text field in
`CSVDocumentRepository._parse_doc` (csv_repository.py:104-107): the
field is unescaped only when non-empty (unescaping the empty string is
the empty string anyway). -/
def parseTextField (s : String) : String :=
  if s = "" then s else unescape_newlines s

/- ------------------------------------------------------------------ -/
/- csv_repository.py : document records                                -/
/- ------------------------------------------------------------------ -/

/-- One stored CSV row, with every field a string exactly as written to
the file.  The pass-through fields `source`, `date`, `url`, `typologie`,
`ministre` and `language` are omitted: no claim touches them and the
code copies them verbatim like `content`. -/
structure StoredDoc where
  id : String := ""
  titre : String := ""
  abstract : String := ""
  content : String := ""
  summary : String := ""
  applicability : String := ""
  themes : String := ""
  keywords : String := ""
  processing_status : String := ""
  created_at : String := ""
  updated_at : String := ""
  processed : String := ""
deriving DecidableEq, Repr

/-- An incoming `doc_data` dictionary for `create`/`bulk_create`.
`Option` fields model keys that may be absent from the dict (`none` =
key missing); an empty string models a present-but-falsy value. -/
structure InputDoc where
  id : String := ""
  titre : String := ""
  abstract : String := ""
  content : String := ""
  summary : String := ""
  applicability : String := ""
  themes : List String := []
  keywords : List String := []
  processing_status : Option String := none
  created_at : Option String := none
  processed : Option String := none
deriving DecidableEq, Repr

/-- The content-path sanity clamp of `_prepare_doc_for_write`
(csv_repository.py:224-232): a truthy content value longer than 500
characters is cleared, otherwise it is stored unchanged. -/
def clampContent (c : String) : String :=
  if c = "" then "" else if c.length > 500 then "" else c

/-- `CSVDocumentRepository._prepare_doc_for_write`
(csv_repository.py:208-270) on an incoming `doc_data` dict.  Returns
`none` for the `ValueError` raised on a missing/falsy id.  Free-text
fields are stripped then newline-escaped; `themes`/`keywords` lists are
joined with `", "`; `processing_status` defaults to `"pending"`;
`created_at` keeps the provided value (the prepared dict always carries
the key, initialised to `''`, so the `get(..., now)` default is never
taken); `updated_at` is set to `now`; `processed` is set to `now` when
the status is `"processed"` and no processed value was provided. -/
def prepare_doc_for_write (d : InputDoc) (now : String) : Option StoredDoc :=
  if d.id = "" then none else
  some
    { id := d.id
      titre := escape_newlines (pyStrip d.titre)
      abstract := escape_newlines (pyStrip d.abstract)
      content := clampContent d.content
      summary := escape_newlines (pyStrip d.summary)
      applicability := escape_newlines (pyStrip d.applicability)
      themes := String.intercalate ", " d.themes
      keywords := String.intercalate ", " d.keywords
      processing_status := d.processing_status.getD "pending"
      created_at := d.created_at.getD ""
      updated_at := now
      processed :=
        if d.processing_status.getD "pending" = "processed" ∧ d.processed.getD "" = "" then now
        else d.processed.getD "" }

/- ------------------------------------------------------------------ -/
/- Lemmas: escape/unescape round trip (claim C4)                       -/
/- ------------------------------------------------------------------ -/

/-- One-character expansion of the escaping map. -/
def escChar (c : Char) : List Char :=
  if c = '\n' then ['\\', 'n'] else if c = '\r' then ['\\', 'r'] else [c]

theorem replaceCharL_append (c : Char) (repl : List Char) (a b : List Char) :
    replaceCharL c repl (a ++ b) = replaceCharL c repl a ++ replaceCharL c repl b := by
  induction a with
  | nil => rfl
  | cons x xs ih => simp [replaceCharL, ih]

theorem escL_cons (x : Char) (l : List Char) :
    escL (x :: l) = escChar x ++ escL l := by
  rw [escL,
    show replaceCharL '\n' ['\\', 'n'] (x :: l)
      = (if x = '\n' then ['\\', 'n'] else [x]) ++ replaceCharL '\n' ['\\', 'n'] l from rfl,
    replaceCharL_append]
  by_cases hn : x = '\n'
  · simp [hn, escChar, replaceCharL, escL]
  · by_cases hr : x = '\r' <;> simp [hn, hr, escChar, replaceCharL, escL]

theorem replacePairL_cons_ne {a : Char} (b r x : Char) (t : List Char) (hx : x ≠ a) :
    replacePairL a b r (x :: t) = x :: replacePairL a b r t := by
  cases t with
  | nil => rfl
  | cons y ys =>
    rw [show replacePairL a b r (x :: y :: ys)
        = if x = a ∧ y = b then r :: replacePairL a b r ys
          else x :: replacePairL a b r (y :: ys) from rfl,
      if_neg (fun hp => hx hp.1)]

theorem replacePairL_cons₂_ne (a : Char) {b : Char} (r x y : Char) (t : List Char)
    (hy : y ≠ b) :
    replacePairL a b r (x :: y :: t) = x :: replacePairL a b r (y :: t) := by
  rw [show replacePairL a b r (x :: y :: t)
      = if x = a ∧ y = b then r :: replacePairL a b r t
        else x :: replacePairL a b r (y :: t) from rfl,
    if_neg (fun hp => hy hp.2)]

theorem replacePairL_pair (a b r : Char) (t : List Char) :
    replacePairL a b r (a :: b :: t) = r :: replacePairL a b r t := by
  rw [show replacePairL a b r (a :: b :: t)
      = if a = a ∧ b = b then r :: replacePairL a b r t
        else a :: replacePairL a b r (b :: t) from rfl,
    if_pos ⟨rfl, rfl⟩]

/-- Core round trip: on a backslash-free character list, unescaping
undoes escaping. -/
theorem unescL_escL_of_no_backslash (l : List Char) (h : '\\' ∉ l) :
    unescL (escL l) = l := by
  induction l with
  | nil => rfl
  | cons x xs ih =>
    have hx : x ≠ '\\' := fun he => h (he ▸ List.mem_cons_self x xs)
    have hxs : '\\' ∉ xs := fun hm => h (List.mem_cons_of_mem x hm)
    have ihx := ih hxs
    rw [escL_cons]
    by_cases hn : x = '\n'
    · subst hn
      show unescL ('\\' :: 'n' :: escL xs) = _
      rw [unescL, replacePairL_pair,
        replacePairL_cons_ne _ _ _ _ (by decide : '\n' ≠ '\\')]
      exact congrArg _ ihx
    · by_cases hr : x = '\r'
      · subst hr
        show unescL ('\\' :: 'r' :: escL xs) = _
        rw [unescL, replacePairL_cons₂_ne _ _ _ _ _ (by decide : 'r' ≠ 'n'),
          replacePairL_cons_ne _ _ _ _ (by decide : 'r' ≠ '\\'),
          replacePairL_pair]
        exact congrArg _ ihx
      · have hesc : escChar x = [x] := by simp [escChar, hn, hr]
        rw [hesc]
        show unescL (x :: escL xs) = _
        rw [unescL, replacePairL_cons_ne _ _ _ _ hx, replacePairL_cons_ne _ _ _ _ hx]
        exact congrArg _ ihx

theorem unescape_escape_string (s : String) (h : '\\' ∉ s.data) :
    unescape_newlines (escape_newlines s) = s := by
  cases s with
  | mk l => exact congrArg String.mk (unescL_escL_of_no_backslash l h)

/-- Escaping a non-empty string is non-empty. -/
theorem escape_ne_empty (s : String) (h : s ≠ "") : escape_newlines s ≠ "" := by
  cases s with
  | mk l =>
    cases l with
    | nil => exact absurd rfl h
    | cons x xs =>
      intro he
      have hdata : escL (x :: xs) = [] := congrArg String.data he
      rw [escL_cons] at hdata
      have hx : escChar x = [] := (List.append_eq_nil.mp hdata).1
      by_cases hn : x = '\n' <;> by_cases hr : x = '\r' <;> simp [escChar, hn, hr] at hx

/-- Round trip of one free-text field through `_prepare_doc_for_write`
(strip, then escape) and `_parse_doc` (unescape when non-empty). -/
theorem parse_escape_strip_roundtrip (t : String) (h1 : '\\' ∉ t.data)
    (h2 : pyStrip t = t) :
    parseTextField (escape_newlines (pyStrip t)) = t := by
  rw [h2]
  by_cases ht : t = ""
  · subst ht
    rfl
  · rw [parseTextField, if_neg (escape_ne_empty t ht)]
    exact unescape_escape_string t h1

/-- C4, counterexample.  The round trip is NOT the identity on every
titre containing embedded newlines and carriage returns:
(1) `"a\r\n"` (trailing `\r\n`) is stripped before storage and reads
back as `"a"`; (2) `"a\\nb\nc\rd"` contains the literal two-character
sequence backslash-`n`, which unescaping turns into a real newline, so
it reads back as `"a\nb\nc\rd"`. -/
theorem titre_roundtrip_claim_cex :
    ('\n' ∈ "a\r\n".data ∧ '\r' ∈ "a\r\n".data ∧
      parseTextField (escape_newlines (pyStrip "a\r\n")) = "a" ∧
      ("a" : String) ≠ "a\r\n")
    ∧ ('\n' ∈ "a\\nb\nc\rd".data ∧ '\r' ∈ "a\\nb\nc\rd".data ∧
      pyStrip "a\\nb\nc\rd" = "a\\nb\nc\rd" ∧
      parseTextField (escape_newlines (pyStrip "a\\nb\nc\rd")) = "a\nb\nc\rd" ∧
      ("a\nb\nc\rd" : String) ≠ "a\\nb\nc\rd") := by
  exact ⟨⟨by decide, by decide, by decide, by decide⟩,
    ⟨by decide, by decide, by decide, by decide, by decide⟩⟩

/-- C4 (amended): for a record stored through `_prepare_doc_for_write`,
each free-text field (`titre`, `abstract`, `summary`, `applicability`)
survives the write/read round trip exactly, provided the original value
contains no backslash character and is equal to its own `strip()`
(i.e. carries no leading/trailing whitespace).  Embedded `\n` and `\r`
characters are escaped reversibly under those conditions. -/
theorem titre_roundtrip_amended (d : InputDoc) (now : String) (doc : StoredDoc)
    (hprep : prepare_doc_for_write d now = some doc) :
    ('\\' ∉ d.titre.data → pyStrip d.titre = d.titre →
      parseTextField doc.titre = d.titre)
    ∧ ('\\' ∉ d.abstract.data → pyStrip d.abstract = d.abstract →
      parseTextField doc.abstract = d.abstract)
    ∧ ('\\' ∉ d.summary.data → pyStrip d.summary = d.summary →
      parseTextField doc.summary = d.summary)
    ∧ ('\\' ∉ d.applicability.data → pyStrip d.applicability = d.applicability →
      parseTextField doc.applicability = d.applicability) := by
  by_cases hid : d.id = ""
  · simp [prepare_doc_for_write, hid] at hprep
  · rw [prepare_doc_for_write, if_neg hid, Option.some_inj] at hprep
    subst hprep
    exact ⟨fun h1 h2 => parse_escape_strip_roundtrip _ h1 h2,
      fun h1 h2 => parse_escape_strip_roundtrip _ h1 h2,
      fun h1 h2 => parse_escape_strip_roundtrip _ h1 h2,
      fun h1 h2 => parse_escape_strip_roundtrip _ h1 h2⟩

/-- C4 witness: a titre with an embedded newline and carriage return
round trips exactly through storage and read-back. -/
theorem titre_roundtrip_amended_witness :
    prepare_doc_for_write { id := "x", titre := "a\nb\rc" } "t0"
      = some { id := "x", titre := "a\\nb\\rc", processing_status := "pending",
               updated_at := "t0" }
    ∧ parseTextField (StoredDoc.titre
        { id := "x", titre := "a\\nb\\rc", processing_status := "pending",
          updated_at := "t0" }) = "a\nb\rc" := by
  refine ⟨by decide, ?_⟩
  exact (titre_roundtrip_amended { id := "x", titre := "a\nb\rc" } "t0"
    { id := "x", titre := "a\\nb\\rc", processing_status := "pending", updated_at := "t0" }
    (by decide)).1 (by decide) (by decide)

/- ------------------------------------------------------------------ -/
/- csv_repository.py : update_document                                 -/
/- ------------------------------------------------------------------ -/

/-- A partial-update dictionary for `update_document`.  `none` = key
absent from the dict.  For `keywords`, `some none` models the Python
value `None` explicitly passed by the enrichment pipeline (it survives
`_prepare_doc_for_write` unformatted and is written out as the empty
cell). -/
structure DocUpdates where
  titre : Option String := none
  abstract : Option String := none
  content : Option String := none
  summary : Option String := none
  applicability : Option String := none
  themes : Option (List String) := none
  keywords : Option (Option (List String)) := none
  processing_status : Option String := none
  processed : Option String := none
deriving DecidableEq, Repr

/-- The body of `update_document` for the matching row
(csv_repository.py:389-402): merge `{**doc, **updates}`, run it through
`_prepare_doc_for_write`, copy every prepared field except `id` and
`created_at` back onto the row, refresh `updated_at`, and set the
`processed` timestamp when the status is `processed` and no processed
value is present.  All merged values are plain strings except the
optional typed update values, so the text fields are stripped and
re-escaped (a no-op on already-stored values) and `content` is clamped
again. -/
def mergeUpdate (u : DocUpdates) (now : String) (d : StoredDoc) : StoredDoc :=
  let st := u.processing_status.getD d.processing_status
  let p := u.processed.getD d.processed
  { id := d.id
    titre := escape_newlines (pyStrip (u.titre.getD d.titre))
    abstract := escape_newlines (pyStrip (u.abstract.getD d.abstract))
    content := clampContent (u.content.getD d.content)
    summary := escape_newlines (pyStrip (u.summary.getD d.summary))
    applicability := escape_newlines (pyStrip (u.applicability.getD d.applicability))
    themes := match u.themes with
      | some l => String.intercalate ", " l
      | none => d.themes
    keywords := match u.keywords with
      | some (some l) => String.intercalate ", " l
      | some none => ""
      | none => d.keywords
    processing_status := st
    created_at := d.created_at
    updated_at := now
    processed := if st = "processed" ∧ p = "" then now else p }

/-- `CSVDocumentRepository.update_document` (csv_repository.py:380-418):
find the first row with the given id, merge/prepare/copy the updates
onto it, and report whether a row was found.  A falsy merged id makes
`_prepare_doc_for_write` raise `ValueError`, which the outer handler
turns into `False` with the store untouched.  When no row matches,
nothing is written. -/
def update_document (store : List StoredDoc) (docId : String) (u : DocUpdates)
    (now : String) : Bool × List StoredDoc :=
  match store with
  | [] => (false, [])
  | d :: rest =>
    if d.id = docId then
      if docId = "" then (false, d :: rest)
      else (true, mergeUpdate u now d :: rest)
    else
      let r := update_document rest docId u now
      (r.1, d :: r.2)

/-- `update_processing_status` (csv_repository.py:420-423). -/
def update_processing_status (store : List StoredDoc) (docId status now : String) :
    Bool × List StoredDoc :=
  update_document store docId { processing_status := some status } now

/- ------------------------------------------------------------------ -/
/- csv_repository.py : bulk_create                                     -/
/- ------------------------------------------------------------------ -/

/-- The per-record loop of `bulk_create` (csv_repository.py:305-326),
carrying the running `existing_ids` set: a record with a falsy id or an
id already seen is skipped, any other record is prepared and its id
added to the set.  Returns (prepared records in order, skipped count). -/
def bulkLoop (existing : List String) (docs : List InputDoc) (now : String) :
    List StoredDoc × Nat :=
  match docs with
  | [] => ([], 0)
  | d :: ds =>
    if d.id = "" then
      let r := bulkLoop existing ds now
      (r.1, r.2 + 1)
    else if d.id ∈ existing then
      let r := bulkLoop existing ds now
      (r.1, r.2 + 1)
    else
      match prepare_doc_for_write d now with
      | some doc =>
        let r := bulkLoop (d.id :: existing) ds now
        (doc :: r.1, r.2)
      | none =>
        let r := bulkLoop existing ds now
        (r.1, r.2 + 1)

/-- `CSVDocumentRepository.bulk_create` (csv_repository.py:299-341).
`writeOk` models whether the atomic `_write_all_documents` rewrite
succeeds; on failure every prepared record is reported as skipped and
the store is unchanged.  When nothing was prepared no write is
attempted. -/
def bulk_create (store : List StoredDoc) (docs : List InputDoc) (writeOk : Bool)
    (now : String) : (Nat × Nat) × List StoredDoc :=
  let r := bulkLoop (store.map (·.id)) docs now
  if r.1.isEmpty then ((0, r.2), store)
  else if writeOk then ((r.1.length, r.2), store ++ r.1)
  else ((0, r.2 + r.1.length), store)

/-- Specification-side helper: the sublist of batch records that
`bulk_create` accepts — records with a non-empty id whose id is neither
in `seen` nor carried by an earlier batch record (first occurrence
wins). -/
def validFirsts (seen : List String) : List InputDoc → List InputDoc
  | [] => []
  | d :: ds =>
    if d.id = "" then validFirsts seen ds
    else if d.id ∈ seen then validFirsts seen ds
    else d :: validFirsts (d.id :: seen) ds

theorem bulkLoop_spec (docs : List InputDoc) : ∀ (seen : List String) (now : String),
    (bulkLoop seen docs now).1
      = (validFirsts seen docs).filterMap (prepare_doc_for_write · now)
    ∧ (bulkLoop seen docs now).1.length = (validFirsts seen docs).length
    ∧ (bulkLoop seen docs now).2 + (validFirsts seen docs).length = docs.length := by
  induction docs with
  | nil => exact fun seen now => ⟨rfl, rfl, rfl⟩
  | cons d ds ih =>
    intro seen now
    by_cases hid : d.id = ""
    · obtain ⟨h1, h2, h3⟩ := ih seen now
      simp only [bulkLoop, validFirsts, if_pos hid]
      exact ⟨h1, h2, by simp only [List.length_cons]; omega⟩
    · by_cases hseen : d.id ∈ seen
      · obtain ⟨h1, h2, h3⟩ := ih seen now
        simp only [bulkLoop, validFirsts, if_neg hid, if_pos hseen]
        exact ⟨h1, h2, by simp only [List.length_cons]; omega⟩
      · obtain ⟨h1, h2, h3⟩ := ih (d.id :: seen) now
        have hprep : prepare_doc_for_write d now
            = some
              { id := d.id
                titre := escape_newlines (pyStrip d.titre)
                abstract := escape_newlines (pyStrip d.abstract)
                content := clampContent d.content
                summary := escape_newlines (pyStrip d.summary)
                applicability := escape_newlines (pyStrip d.applicability)
                themes := String.intercalate ", " d.themes
                keywords := String.intercalate ", " d.keywords
                processing_status := d.processing_status.getD "pending"
                created_at := d.created_at.getD ""
                updated_at := now
                processed :=
                  if d.processing_status.getD "pending" = "processed"
                      ∧ d.processed.getD "" = "" then now
                  else d.processed.getD "" } := by
          rw [prepare_doc_for_write, if_neg hid]
        simp only [bulkLoop, validFirsts, if_neg hid, if_neg hseen, hprep,
          List.filterMap_cons, List.length_cons]
        exact ⟨by rw [h1], by rw [h2], by omega⟩

theorem validFirsts_sound (docs : List InputDoc) : ∀ (seen : List String),
    ∀ d ∈ validFirsts seen docs, d.id ≠ "" ∧ d.id ∉ seen := by
  induction docs with
  | nil => intro seen d hd; simp [validFirsts] at hd
  | cons x xs ih =>
    intro seen d hd
    by_cases hid : x.id = ""
    · rw [validFirsts, if_pos hid] at hd
      exact ih seen d hd
    · by_cases hseen : x.id ∈ seen
      · rw [validFirsts, if_neg hid, if_pos hseen] at hd
        exact ih seen d hd
      · rw [validFirsts, if_neg hid, if_neg hseen] at hd
        rcases List.mem_cons.mp hd with he | hm
        · subst he; exact ⟨hid, hseen⟩
        · have := ih (x.id :: seen) d hm
          exact ⟨this.1, fun hc => this.2 (List.mem_cons_of_mem _ hc)⟩

theorem validFirsts_ids_nodup (docs : List InputDoc) : ∀ (seen : List String),
    ((validFirsts seen docs).map (·.id)).Nodup := by
  induction docs with
  | nil => intro seen; simp [validFirsts]
  | cons x xs ih =>
    intro seen
    by_cases hid : x.id = ""
    · rw [validFirsts, if_pos hid]; exact ih seen
    · by_cases hseen : x.id ∈ seen
      · rw [validFirsts, if_neg hid, if_pos hseen]; exact ih seen
      · rw [validFirsts, if_neg hid, if_neg hseen]
        simp only [List.map_cons, List.nodup_cons]
        refine ⟨?_, ih (x.id :: seen)⟩
        intro hc
        obtain ⟨e, he, heq⟩ := List.mem_map.mp hc
        have := (validFirsts_sound xs (x.id :: seen) e he).2
        exact this (heq ▸ List.mem_cons_self _ _)

theorem validFirsts_mem_iff (docs : List InputDoc) : ∀ (seen : List String) (d : InputDoc),
    d ∈ validFirsts seen docs
      ↔ ∃ pre post, docs = pre ++ d :: post ∧ d.id ≠ "" ∧ d.id ∉ seen
          ∧ ∀ e ∈ pre, e.id ≠ d.id := by
  induction docs with
  | nil =>
    intro seen d
    simp [validFirsts]
  | cons x xs ih =>
    intro seen d
    constructor
    · intro hd
      by_cases hid : x.id = ""
      · rw [validFirsts, if_pos hid] at hd
        obtain ⟨pre, post, hsplit, hne, hnseen, hpre⟩ := (ih seen d).mp hd
        refine ⟨x :: pre, post, by rw [hsplit]; rfl, hne, hnseen, ?_⟩
        intro e he
        rcases List.mem_cons.mp he with he | he
        · subst he; rw [hid]; exact fun h => hne h.symm
        · exact hpre e he
      · by_cases hseen : x.id ∈ seen
        · rw [validFirsts, if_neg hid, if_pos hseen] at hd
          obtain ⟨pre, post, hsplit, hne, hnseen, hpre⟩ := (ih seen d).mp hd
          refine ⟨x :: pre, post, by rw [hsplit]; rfl, hne, hnseen, ?_⟩
          intro e he
          rcases List.mem_cons.mp he with he | he
          · subst he; exact fun h => hnseen (h ▸ hseen)
          · exact hpre e he
        · rw [validFirsts, if_neg hid, if_neg hseen] at hd
          rcases List.mem_cons.mp hd with he | hm
          · subst he
            exact ⟨[], xs, rfl, hid, hseen, by intro e he; simp at he⟩
          · obtain ⟨pre, post, hsplit, hne, hnseen, hpre⟩ := (ih (x.id :: seen) d).mp hm
            have hnx : d.id ≠ x.id := fun h => hnseen (h ▸ List.mem_cons_self _ _)
            have hns : d.id ∉ seen := fun h => hnseen (List.mem_cons_of_mem _ h)
            refine ⟨x :: pre, post, by rw [hsplit]; rfl, hne, hns, ?_⟩
            intro e he
            rcases List.mem_cons.mp he with he | he
            · subst he; exact fun h => hnx h.symm
            · exact hpre e he
    · rintro ⟨pre, post, hsplit, hne, hnseen, hpre⟩
      cases pre with
      | nil =>
        simp only [List.nil_append, List.cons.injEq] at hsplit
        obtain ⟨hxd, hxs⟩ := hsplit
        subst hxd
        rw [validFirsts, if_neg hne, if_neg hnseen]
        rw [hxs]
        exact List.mem_cons_self _ _
      | cons y pre' =>
        simp only [List.cons_append, List.cons.injEq] at hsplit
        obtain ⟨hxy, hxs⟩ := hsplit
        subst hxy
        have hyd : x.id ≠ d.id := hpre x (List.mem_cons_self _ _)
        have hpre' : ∀ e ∈ pre', e.id ≠ d.id := fun e he => hpre e (List.mem_cons_of_mem _ he)
        by_cases hid : x.id = ""
        · rw [validFirsts, if_pos hid]
          exact (ih seen d).mpr ⟨pre', post, hxs, hne, hnseen, hpre'⟩
        · by_cases hseen : x.id ∈ seen
          · rw [validFirsts, if_neg hid, if_pos hseen]
            exact (ih seen d).mpr ⟨pre', post, hxs, hne, hnseen, hpre'⟩
          · rw [validFirsts, if_neg hid, if_neg hseen]
            refine List.mem_cons_of_mem _ ?_
            refine (ih (x.id :: seen) d).mpr ⟨pre', post, hxs, hne, ?_, hpre'⟩
            intro hc
            rcases List.mem_cons.mp hc with hc | hc
            · exact hyd hc.symm
            · exact hnseen hc

/-- C1: for every batch, `bulk_create` returns `(created, skipped)` with
`created + skipped = batch length`; a record with a missing/empty id, an
id already present in the store, or an id duplicating an earlier batch
record is skipped and not stored (the accepted records are exactly the
first occurrences of fresh, non-empty ids, in batch order); and when the
final atomic write fails, `created = 0`, every record is reported
skipped, and the store is unchanged. -/
theorem bulk_create_spec (store : List StoredDoc) (docs : List InputDoc)
    (writeOk : Bool) (now : String) :
    (bulk_create store docs writeOk now).1.1 + (bulk_create store docs writeOk now).1.2
      = docs.length
    ∧ (writeOk = false →
        (bulk_create store docs writeOk now).1.1 = 0
        ∧ (bulk_create store docs writeOk now).1.2 = docs.length
        ∧ (bulk_create store docs writeOk now).2 = store)
    ∧ (writeOk = true →
        (bulk_create store docs writeOk now).2
          = store
            ++ (validFirsts (store.map (·.id)) docs).filterMap (prepare_doc_for_write · now)
        ∧ (bulk_create store docs writeOk now).1.1
          = (validFirsts (store.map (·.id)) docs).length)
    ∧ (∀ d ∈ validFirsts (store.map (·.id)) docs, d.id ≠ "" ∧ d.id ∉ store.map (·.id))
    ∧ ((validFirsts (store.map (·.id)) docs).map (·.id)).Nodup
    ∧ (∀ d : InputDoc,
        d ∈ validFirsts (store.map (·.id)) docs
          ↔ ∃ pre post, docs = pre ++ d :: post ∧ d.id ≠ ""
              ∧ d.id ∉ store.map (·.id) ∧ ∀ e ∈ pre, e.id ≠ d.id) := by
  obtain ⟨h1, h2, h3⟩ := bulkLoop_spec docs (store.map (·.id)) now
  rcases hbl : bulkLoop (store.map (·.id)) docs now with ⟨created, skipped⟩
  rw [hbl] at h1 h2 h3
  simp only at h1 h2 h3
  have hbc : bulk_create store docs writeOk now
      = if created.isEmpty then ((0, skipped), store)
        else if writeOk then ((created.length, skipped), store ++ created)
        else ((0, skipped + created.length), store) := by
    simp only [bulk_create, hbl]
  refine ⟨?_, ?_, ?_, validFirsts_sound docs _, validFirsts_ids_nodup docs _,
    fun d => validFirsts_mem_iff docs _ d⟩
  · cases created with
    | nil =>
      rw [show bulk_create store docs writeOk now = ((0, skipped), store) from hbc]
      have : (validFirsts (store.map (·.id)) docs).length = 0 := by
        simpa using h2.symm
      simp only
      omega
    | cons c cs =>
      cases writeOk
      · rw [show bulk_create store docs false now
            = ((0, skipped + (c :: cs).length), store) from hbc]
        simp only [List.length_cons] at h2 h3 ⊢
        omega
      · rw [show bulk_create store docs true now
            = (((c :: cs).length, skipped), store ++ (c :: cs)) from hbc]
        simp only [List.length_cons] at h2 h3 ⊢
        omega
  · intro hw
    subst hw
    cases created with
    | nil =>
      rw [show bulk_create store docs false now = ((0, skipped), store) from hbc]
      have : (validFirsts (store.map (·.id)) docs).length = 0 := by
        simpa using h2.symm
      exact ⟨rfl, by simp only; omega, rfl⟩
    | cons c cs =>
      rw [show bulk_create store docs false now
          = ((0, skipped + (c :: cs).length), store) from hbc]
      exact ⟨rfl, by simp only; omega, rfl⟩
  · intro hw
    subst hw
    cases created with
    | nil =>
      rw [show bulk_create store docs true now = ((0, skipped), store) from hbc]
      have hfm : (validFirsts (store.map (·.id)) docs).filterMap
          (prepare_doc_for_write · now) = [] := h1.symm
      have hlen : (validFirsts (store.map (·.id)) docs).length = 0 := by
        simpa using h2.symm
      exact ⟨by rw [hfm, List.append_nil], by simp only; omega⟩
    | cons c cs =>
      rw [show bulk_create store docs true now
          = (((c :: cs).length, skipped), store ++ (c :: cs)) from hbc]
      exact ⟨by rw [h1], by rw [h2]⟩

/-- C1 witness: a concrete batch against a store holding id `"a"`:
record with empty id skipped, duplicate-of-store `"a"` skipped,
in-batch duplicate `"b"` skipped keeping the first occurrence, and the
write-failure accounting on the same batch. -/
theorem bulk_create_spec_witness :
    (bulk_create [{ id := "a" }] [{ id := "" }, { id := "a" }, { id := "b", titre := "T1" },
        { id := "b", titre := "T2" }] true "t0").1 = (1, 3)
    ∧ (bulk_create [{ id := "a" }] [{ id := "" }, { id := "a" }, { id := "b", titre := "T1" },
        { id := "b", titre := "T2" }] true "t0").2
      = [{ id := "a" },
         { id := "b", titre := "T1", processing_status := "pending", updated_at := "t0" }]
    ∧ (bulk_create [{ id := "a" }] [{ id := "" }, { id := "a" }, { id := "b", titre := "T1" },
        { id := "b", titre := "T2" }] false "t0").1 = (0, 4)
    ∧ (bulk_create [{ id := "a" }] [{ id := "" }, { id := "a" }, { id := "b", titre := "T1" },
        { id := "b", titre := "T2" }] false "t0").2 = [{ id := "a" }]
    ∧ (validFirsts ((["a"] : List String)) [{ id := "" }, { id := "a" },
        { id := "b", titre := "T1" }, { id := "b", titre := "T2" }]
      = [{ id := "b", titre := "T1" }]) := by
  have hfalse := (bulk_create_spec [{ id := "a" }]
    [{ id := "" }, { id := "a" }, { id := "b", titre := "T1" }, { id := "b", titre := "T2" }]
    false "t0").2.1 rfl
  refine ⟨by decide, by decide, ?_, hfalse.2.2, by decide⟩
  rw [Prod.ext_iff]
  exact ⟨hfalse.1, hfalse.2.1⟩

/-- C5: a record written through `_prepare_doc_for_write` (the shared
validation of `create`/`bulk_create`) or through `update_document`'s
merge with a non-empty content value keeps the record but clears
`content` when it exceeds 500 characters, and stores it unchanged as a
plain string when it is at most 500 characters. -/
theorem content_threshold_spec :
    (∀ (d : InputDoc) (now : String) (doc : StoredDoc),
      prepare_doc_for_write d now = some doc → d.content ≠ "" →
        doc.content = if d.content.length > 500 then "" else d.content)
    ∧ (∀ (dd : StoredDoc) (u : DocUpdates) (now : String) (c : String),
      u.content = some c → c ≠ "" →
        (mergeUpdate u now dd).content = if c.length > 500 then "" else c) := by
  constructor
  · intro d now doc hprep hne
    by_cases hid : d.id = ""
    · simp [prepare_doc_for_write, hid] at hprep
    · rw [prepare_doc_for_write, if_neg hid, Option.some_inj] at hprep
      subst hprep
      show clampContent d.content = _
      rw [clampContent, if_neg hne]
  · intro dd u now c hc hne
    show clampContent (u.content.getD dd.content) = _
    rw [hc]
    show clampContent c = _
    rw [clampContent, if_neg hne]

set_option maxRecDepth 4000 in
/-- C5 witness: a 501-character content value is cleared by the write
path, an ordinary path value is stored unchanged by the update path. -/
theorem content_threshold_spec_witness :
    ({ id := "x", processing_status := "pending", updated_at := "t0" } : StoredDoc).content
      = (if (String.mk (List.replicate 501 'p')).length > 500 then ""
         else String.mk (List.replicate 501 'p'))
    ∧ (mergeUpdate { content := some "files/doc.txt" } "t0" { id := "x" }).content
      = (if ("files/doc.txt" : String).length > 500 then "" else "files/doc.txt") := by
  exact ⟨content_threshold_spec.1
      { id := "x", content := String.mk (List.replicate 501 'p') } "t0"
      { id := "x", processing_status := "pending", updated_at := "t0" }
      (by decide) (by decide),
    content_threshold_spec.2 { id := "x" } { content := some "files/doc.txt" } "t0"
      "files/doc.txt" rfl (by decide)⟩

/-- C8: `update_document` on an id matching no stored record returns
`false` and leaves the stored records completely unchanged. -/
theorem update_document_missing_id (store : List StoredDoc) (docId : String)
    (u : DocUpdates) (now : String) (h : ∀ d ∈ store, d.id ≠ docId) :
    update_document store docId u now = (false, store) := by
  induction store with
  | nil => rfl
  | cons d rest ih =>
    have hd : d.id ≠ docId := h d (List.mem_cons_self _ _)
    have hrest : ∀ e ∈ rest, e.id ≠ docId := fun e he => h e (List.mem_cons_of_mem _ he)
    rw [show update_document (d :: rest) docId u now
        = if d.id = docId then
            (if docId = "" then (false, d :: rest) else (true, mergeUpdate u now d :: rest))
          else ((update_document rest docId u now).1,
                d :: (update_document rest docId u now).2) from rfl,
      if_neg hd, ih hrest]

/-- C8 witness: updating a nonexistent id on a one-record store. -/
theorem update_document_missing_id_witness :
    update_document [{ id := "a", titre := "T" }] "zzz"
      { summary := some "S" } "t1" = (false, [{ id := "a", titre := "T" }]) := by
  exact update_document_missing_id [{ id := "a", titre := "T" }] "zzz"
    { summary := some "S" } "t1" (by decide)

/-- C6 (amended): `update_document` preserves `id` and `created_at`
unconditionally and refreshes `updated_at` on the updated row; for an
update dictionary that does not itself carry a `processed` key, the
`processed` timestamp is set (to `now`) exactly when the merged status
is `processed` and the stored timestamp was unset, and is left
unchanged otherwise — in particular a second transition to `processed`
keeps the first timestamp.  An update dictionary that explicitly
carries `processed` overwrites it (see the counterexample).  A failed
update leaves the store unchanged. -/
theorem update_document_processed_spec (store : List StoredDoc) (docId : String)
    (u : DocUpdates) (now : String) :
    ((update_document store docId u now).1 = false →
      (update_document store docId u now).2 = store)
    ∧ ((update_document store docId u now).1 = true →
      ∃ pre d post, store = pre ++ d :: post ∧ (∀ e ∈ pre, e.id ≠ docId) ∧ d.id = docId
        ∧ (update_document store docId u now).2 = pre ++ mergeUpdate u now d :: post
        ∧ (mergeUpdate u now d).id = d.id
        ∧ (mergeUpdate u now d).created_at = d.created_at
        ∧ (mergeUpdate u now d).updated_at = now
        ∧ (u.processed = none →
            (mergeUpdate u now d).processed
              = if (u.processing_status.getD d.processing_status) = "processed"
                    ∧ d.processed = "" then now
                else d.processed)) := by
  induction store with
  | nil =>
    exact ⟨fun _ => rfl, fun ht => by simp [update_document] at ht⟩
  | cons d rest ih =>
    by_cases hd : d.id = docId
    · by_cases hz : docId = ""
      · have heq : update_document (d :: rest) docId u now = (false, d :: rest) := by
          rw [show update_document (d :: rest) docId u now
              = if d.id = docId then
                  (if docId = "" then (false, d :: rest)
                   else (true, mergeUpdate u now d :: rest))
                else ((update_document rest docId u now).1,
                      d :: (update_document rest docId u now).2) from rfl,
            if_pos hd, if_pos hz]
        rw [heq]
        exact ⟨fun _ => rfl, fun ht => by simp at ht⟩
      · have heq : update_document (d :: rest) docId u now
            = (true, mergeUpdate u now d :: rest) := by
          rw [show update_document (d :: rest) docId u now
              = if d.id = docId then
                  (if docId = "" then (false, d :: rest)
                   else (true, mergeUpdate u now d :: rest))
                else ((update_document rest docId u now).1,
                      d :: (update_document rest docId u now).2) from rfl,
            if_pos hd, if_neg hz]
        rw [heq]
        refine ⟨fun hf => by simp at hf, fun _ => ⟨[], d, rest, rfl, by simp, hd, rfl,
          rfl, rfl, rfl, fun hp => ?_⟩⟩
        show (if (u.processing_status.getD d.processing_status) = "processed"
              ∧ (u.processed.getD d.processed) = "" then now
              else u.processed.getD d.processed) = _
        rw [hp]
        rfl
    · have heq : update_document (d :: rest) docId u now
          = ((update_document rest docId u now).1,
             d :: (update_document rest docId u now).2) := by
        rw [show update_document (d :: rest) docId u now
            = if d.id = docId then
                (if docId = "" then (false, d :: rest)
                 else (true, mergeUpdate u now d :: rest))
              else ((update_document rest docId u now).1,
                    d :: (update_document rest docId u now).2) from rfl,
          if_neg hd]
      rw [heq]
      constructor
      · intro hf
        simp only at hf
        rw [ih.1 hf]
      · intro ht
        simp only at ht
        obtain ⟨pre, e, post, hsplit, hpre, hid, hstore, hrest⟩ := ih.2 ht
        refine ⟨d :: pre, e, post, by rw [hsplit]; rfl, ?_, hid, ?_, hrest⟩
        · intro f hf
          rcases List.mem_cons.mp hf with hf | hf
          · subst hf; exact hd
          · exact hpre f hf
        · show d :: (update_document rest docId u now).2 = _
          rw [hstore]
          rfl

/-- C6, counterexample: an update dictionary that explicitly carries a
`processed` value overwrites an already-set `processed` timestamp, so
"any later update leaves the existing processed timestamp unchanged" is
false as a statement about every partial-update dictionary. -/
theorem update_document_processed_claim_cex :
    (update_document
        [{ id := "x", processing_status := "processed",
           processed := "2020-01-01 00:00:00" }] "x"
        { processed := some "1111-11-11 11:11:11" } "2024-06-01 12:00:00").2
      = [{ id := "x", processing_status := "processed",
           processed := "1111-11-11 11:11:11", updated_at := "2024-06-01 12:00:00" }]
    ∧ ("1111-11-11 11:11:11" : String) ≠ "2020-01-01 00:00:00" := by
  exact ⟨by decide, by decide⟩

/-- C6 witness: a second transition to `processed` on a record whose
`processed` timestamp is already set leaves that timestamp unchanged,
preserves `id`/`created_at`, and refreshes `updated_at`. -/
theorem update_document_processed_spec_witness :
    ∃ pre d post,
      ([{ id := "x", processing_status := "processed", processed := "2020-01-01 00:00:00",
          created_at := "2019-12-31 00:00:00" }] : List StoredDoc) = pre ++ d :: post
      ∧ (∀ e ∈ pre, e.id ≠ "x") ∧ d.id = "x"
      ∧ (update_document
          [{ id := "x", processing_status := "processed", processed := "2020-01-01 00:00:00",
             created_at := "2019-12-31 00:00:00" }] "x"
          { processing_status := some "processed" } "t1").2
        = pre ++ mergeUpdate { processing_status := some "processed" } "t1" d :: post
      ∧ (mergeUpdate { processing_status := some "processed" } "t1" d).id = d.id
      ∧ (mergeUpdate { processing_status := some "processed" } "t1" d).created_at = d.created_at
      ∧ (mergeUpdate { processing_status := some "processed" } "t1" d).updated_at = "t1"
      ∧ (({ processing_status := some "processed" } : DocUpdates).processed = none →
          (mergeUpdate { processing_status := some "processed" } "t1" d).processed
            = if (({ processing_status := some "processed" } : DocUpdates).processing_status.getD
                    d.processing_status) = "processed" ∧ d.processed = "" then "t1"
              else d.processed) := by
  exact (update_document_processed_spec
    [{ id := "x", processing_status := "processed", processed := "2020-01-01 00:00:00",
       created_at := "2019-12-31 00:00:00" }] "x"
    { processing_status := some "processed" } "t1").2 (by decide)

/- ------------------------------------------------------------------ -/
/- csv_repository.py : get_all                                         -/
/- ------------------------------------------------------------------ -/

/-- The `created_at` value of a document after `_parse_doc`
(csv_repository.py:136-148): either a parsed datetime (`dt`, with `Nat`
order-embedding `datetime` and `0 = datetime.min`), or the original
string when parsing failed (`raw`; the missing/empty case is
`raw ""`). -/
inductive CAVal where
  | dt (t : Nat)
  | raw (s : String)
deriving DecidableEq, Repr

/-- A parsed document reduced to the fields `get_all` inspects. -/
structure PDoc where
  id : String := ""
  created_at : CAVal := CAVal.raw ""
deriving DecidableEq, Repr

/-- `safe_sort_key` inside `get_all` (csv_repository.py:347-351): a
parsed `created_at` is its own key, a value that is still a string (or
`None`) gets `datetime.min`, i.e. `0`.  Note `datetime.min` itself is
the parse of the storable string `"0001-01-01 00:00:00"`, modelled as
`CAVal.dt 0`. -/
def safe_sort_key (d : PDoc) : Nat :=
  match d.created_at with
  | .dt t => t
  | .raw _ => 0

/-- The descending sort relation of `get_all`:
`documents.sort(key=safe_sort_key, reverse=True)` is CPython's stable
sort with reversed comparison, which `List.insertionSort` under this
relation computes exactly (ties keep list order). -/
def getAllRel (a b : PDoc) : Prop := safe_sort_key b ≤ safe_sort_key a

instance : DecidableRel getAllRel := fun _ _ => Nat.decLe _ _

instance : IsTotal PDoc getAllRel := ⟨fun a b => Nat.le_total (safe_sort_key b) (safe_sort_key a)⟩

instance : IsTrans PDoc getAllRel := ⟨fun _ _ _ h1 h2 => Nat.le_trans h2 h1⟩

/-- `CSVDocumentRepository.get_all` (csv_repository.py:343-355): sort by
`safe_sort_key` descending (stable), then slice
`documents[skip : skip + limit]`. -/
def get_all (docs : List PDoc) (skip limit : Nat) : List PDoc :=
  ((docs.insertionSort getAllRel).drop skip).take limit

/-- C7 (amended): `get_all` returns the `[skip, skip+limit)` slice of a
permutation of the store sorted by `created_at` descending, where a
missing/unparsable `created_at` sorts with the minimum key `0`
(`datetime.min`); consequently an unparsable record is followed only by
records whose parsed timestamp is exactly the minimum (`dt 0`, i.e.
`0001-01-01 00:00:00`) — such a valid-timestamp record can tie with and
follow an unparsable one, which is the one exception to the claim's
"ordered after all records carrying valid parsed timestamps". -/
theorem get_all_sorted_spec (docs : List PDoc) (skip limit : Nat) :
    get_all docs skip limit
      = ((docs.insertionSort getAllRel).drop skip).take limit
    ∧ (docs.insertionSort getAllRel).Sorted getAllRel
    ∧ (docs.insertionSort getAllRel).Perm docs
    ∧ (docs.insertionSort getAllRel).Pairwise
        (fun a b => ∀ s, a.created_at = CAVal.raw s → ∀ t, b.created_at = CAVal.dt t → t = 0) := by
  refine ⟨rfl, List.sorted_insertionSort getAllRel docs,
    List.perm_insertionSort getAllRel docs, ?_⟩
  refine List.Pairwise.imp ?_ (List.sorted_insertionSort getAllRel docs)
  intro a b hab s hs t ht
  have ha : safe_sort_key a = 0 := by rw [safe_sort_key, hs]
  have hb : safe_sort_key b = t := by rw [safe_sort_key, ht]
  have := hab
  rw [getAllRel, ha, hb] at this
  omega

/-- C7, counterexample: with an unparsable `created_at` stored before a
record whose `created_at` parses to `datetime.min`
(`"0001-01-01 00:00:00"`, modelled `CAVal.dt 0`), `get_all` returns the
unparsable record FIRST — it is not ordered after every record carrying
a valid parsed timestamp. -/
theorem get_all_order_claim_cex :
    (get_all [{ id := "bad", created_at := CAVal.raw "not-a-date" },
              { id := "good", created_at := CAVal.dt 0 }] 0 10).map (fun d => d.created_at)
      = [CAVal.raw "not-a-date", CAVal.dt 0] := by
  decide

/- ------------------------------------------------------------------ -/
/- llm_processor.py : applicability classification                     -/
/- ------------------------------------------------------------------ -/

/-- `LLMProcessor.APPLICABILITY_CATEGORIES` (llm_processor.py:53-66),
in dict insertion order. -/
def APPLICABILITY_CATEGORIES : List (String × List String) :=
  [("information",
    ["Directive européenne", "Circulaire", "Instruction", "Normes",
     "Communiqué", "Avis", "Recommandation", "Décision ou résumé de décisions",
     "Rapport"]),
   ("obligation",
    ["Loi", "Règlement", "Décret", "Arrêté", "Convention"]),
   ("jurisprudence",
    ["Arrêt", "Décision", "Cour de cassation", "Conseil constitutionnel",
     "Cour de justice de l\x27union européenne", "Tribunal de l\x27union européenne"])]

/-- The quote characters stripped by `response.strip('"\'')`
(llm_processor.py:434). -/
def quoteChar (c : Char) : Bool := c = '"' || c = '\x27'

/-- The cleanup applied to the raw model output before validation:
`.strip()` at the call site (llm_processor.py:431) followed by
`.strip('"\'').strip()` (llm_processor.py:434). -/
def cleanResp (s : String) : String :=
  pyStrip ⟨pyStripWith quoteChar (pyStrip s).data⟩

/-- Python `str.split(sep, 1)` for a one-character separator, as the
pair (before, after) when the separator occurs (`'/' in response`
guards the call site). -/
def splitFirstL (c : Char) : List Char → Option (List Char × List Char)
  | [] => none
  | x :: rest =>
    if x = c then some ([], rest)
    else
      match splitFirstL c rest with
      | some (pre, post) => some (x :: pre, post)
      | none => none

/-- Dictionary lookup `category in self.APPLICABILITY_CATEGORIES`
followed by `self.APPLICABILITY_CATEGORIES[category]`. -/
def findCategory (cat : String) : Option (String × List String) :=
  APPLICABILITY_CATEGORIES.find? (fun p => p.1 == cat)

/-- The literal scan order of the fallback loop
(llm_processor.py:467). -/
def FALLBACK_ORDER : List String := ["obligation", "jurisprudence", "information"]

/-- `self.APPLICABILITY_CATEGORIES[category]` for the fallback branch. -/
def categorySubtypes (cat : String) : List String :=
  ((findCategory cat).map Prod.snd).getD []

/-- The response-validation logic of `LLMProcessor._classify_applicability`
(llm_processor.py:431-477), as a pure function of the raw model output:
clean the response; if it contains `'/'`, split once, lowercase+strip
the category part and strip the type part; on a known category, return
`category/<canonical type>` for a case-insensitive type match, else
`category/<first type of the category>`; otherwise scan the cleaned
response (lowercased) for the substrings `"obligation"`,
`"jurisprudence"`, `"information"` in that order and return
`<category>/<first type>`; finally default to `"information/Avis"`. -/
def classify_applicability_response (resp : String) : String :=
  let r := cleanResp resp
  let viaSlash : Option String :=
    match splitFirstL '/' r.data with
    | none => none
    | some (pre, post) =>
      let category := String.mk (pyStripL (pyLowerL pre))
      let dtypeResp := String.mk (pyStripL post)
      match findCategory category with
      | none => none
      | some (_, validTypes) =>
        match validTypes.find? (fun t => pyLower t == pyLower dtypeResp) with
        | some m => some (category ++ "/" ++ m)
        | none => some (category ++ "/" ++ validTypes.headD "")
  match viaSlash with
  | some res => res
  | none =>
    match FALLBACK_ORDER.find? (fun cat => containsSubL cat.data (pyLowerL r.data)) with
    | some cat => cat ++ "/" ++ (categorySubtypes cat).headD ""
    | none => "information/Avis"

theorem splitFirstL_eq_none (c : Char) (l : List Char) (h : c ∉ l) :
    splitFirstL c l = none := by
  induction l with
  | nil => rfl
  | cons x rest ih =>
    have hx : x ≠ c := fun he => h (he ▸ List.mem_cons_self _ _)
    have hr : c ∉ rest := fun hm => h (List.mem_cons_of_mem _ hm)
    rw [splitFirstL, if_neg hx, ih hr]

theorem splitFirstL_append (c : Char) (l1 l2 : List Char) (h : c ∉ l1) :
    splitFirstL c (l1 ++ c :: l2) = some (l1, l2) := by
  induction l1 with
  | nil => simp [splitFirstL]
  | cons x rest ih =>
    have hx : x ≠ c := fun he => h (he ▸ List.mem_cons_self _ _)
    have hr : c ∉ rest := fun hm => h (List.mem_cons_of_mem _ hm)
    rw [List.cons_append, splitFirstL, if_neg hx, ih hr]

/-- The slash branch of the validator: with a clean response
`cat ++ "/" ++ dtype` over a known category, the result is the
case-insensitive canonical match if any, else the category's first
subtype. -/
theorem classify_slash_case (cat : String) (types : List String) (dtype : String)
    (hclean : cleanResp (cat ++ "/" ++ dtype) = cat ++ "/" ++ dtype)
    (hcat : '/' ∉ cat.data)
    (hlow : String.mk (pyStripL (pyLowerL cat.data)) = cat)
    (hfind : findCategory cat = some (cat, types)) :
    classify_applicability_response (cat ++ "/" ++ dtype)
      = match types.find? (fun t => pyLower t == pyLower (String.mk (pyStripL dtype.data))) with
        | some m => cat ++ "/" ++ m
        | none => cat ++ "/" ++ types.headD "" := by
  have hdata : (cat ++ "/" ++ dtype).data = cat.data ++ '/' :: dtype.data := by
    rw [String.data_append, String.data_append]
    simp
  have hsplit : splitFirstL '/' (cat ++ "/" ++ dtype).data = some (cat.data, dtype.data) := by
    rw [hdata]
    exact splitFirstL_append _ _ _ hcat
  simp only [classify_applicability_response, hclean, hsplit, hlow, hfind]
  cases types.find? (fun t => pyLower t == pyLower (String.mk (pyStripL dtype.data))) <;> simp

/-- C3, counterexample: an unparseable response containing the word
"jurisprudence" does NOT always fall back to `"jurisprudence/Arrêt"`:
the fallback scans for `"obligation"` first, so a response containing
both words yields `"obligation/Loi"`. -/
theorem classify_applicability_claim_cex :
    containsSubL "jurisprudence".data
        (pyLowerL (cleanResp "This is jurisprudence, not an obligation.").data) = true
    ∧ splitFirstL '/' (cleanResp "This is jurisprudence, not an obligation.").data = none
    ∧ classify_applicability_response "This is jurisprudence, not an obligation."
      = "obligation/Loi"
    ∧ ("obligation/Loi" : String) ≠ "jurisprudence/Arrêt" := by
  exact ⟨by decide, by decide, by decide, by decide⟩

/-- C3 (amended): `"obligation/Règlement"` is stored exactly; every
`category/<listed subtype>` response is stored exactly; a response
splitting into a known category with a case-insensitively matched
subtype stores `category/<canonical subtype>`, and with an unmatched
subtype stores `category/<first subtype>`; an unparseable response
falls back by scanning for the substrings `"obligation"`,
`"jurisprudence"`, `"information"` IN THAT ORDER — so a response
containing "jurisprudence" falls back to `"jurisprudence/Arrêt"` only
when it does not also contain `"obligation"`; a response containing
none of the category names is stored as `"information/Avis"`. -/
theorem classify_applicability_spec :
    (classify_applicability_response "obligation/Règlement" = "obligation/Règlement")
    ∧ (∀ p ∈ APPLICABILITY_CATEGORIES, ∀ t ∈ p.2,
        classify_applicability_response (p.1 ++ "/" ++ t) = p.1 ++ "/" ++ t)
    ∧ (∀ (cat : String) (types : List String) (dtype m : String),
        findCategory cat = some (cat, types) →
        String.mk (pyStripL (pyLowerL cat.data)) = cat →
        '/' ∉ cat.data →
        cleanResp (cat ++ "/" ++ dtype) = cat ++ "/" ++ dtype →
        types.find? (fun t => pyLower t == pyLower (String.mk (pyStripL dtype.data)))
          = some m →
        classify_applicability_response (cat ++ "/" ++ dtype) = cat ++ "/" ++ m)
    ∧ (∀ (cat : String) (types : List String) (dtype : String),
        findCategory cat = some (cat, types) →
        String.mk (pyStripL (pyLowerL cat.data)) = cat →
        '/' ∉ cat.data →
        cleanResp (cat ++ "/" ++ dtype) = cat ++ "/" ++ dtype →
        types.find? (fun t => pyLower t == pyLower (String.mk (pyStripL dtype.data)))
          = none →
        classify_applicability_response (cat ++ "/" ++ dtype)
          = cat ++ "/" ++ types.headD "")
    ∧ (∀ resp : String, cleanResp resp = resp → splitFirstL '/' resp.data = none →
        containsSubL "obligation".data (pyLowerL resp.data) = false →
        containsSubL "jurisprudence".data (pyLowerL resp.data) = true →
        classify_applicability_response resp = "jurisprudence/Arrêt")
    ∧ (∀ resp : String, cleanResp resp = resp → splitFirstL '/' resp.data = none →
        containsSubL "obligation".data (pyLowerL resp.data) = false →
        containsSubL "jurisprudence".data (pyLowerL resp.data) = false →
        containsSubL "information".data (pyLowerL resp.data) = false →
        classify_applicability_response resp = "information/Avis") := by
  refine ⟨by decide, by decide, ?_, ?_, ?_, ?_⟩
  · intro cat types dtype m hfind hlow hcat hclean hsome
    rw [classify_slash_case cat types dtype hclean hcat hlow hfind, hsome]
  · intro cat types dtype hfind hlow hcat hclean hnone
    rw [classify_slash_case cat types dtype hclean hcat hlow hfind, hnone]
  · intro resp h1 h2 hob hjur
    simp only [classify_applicability_response, h1, h2, FALLBACK_ORDER, List.find?_cons,
      hob, hjur]
    decide
  · intro resp h1 h2 hob hjur hinf
    simp only [classify_applicability_response, h1, h2, FALLBACK_ORDER, List.find?_cons,
      hob, hjur, hinf]
    rfl

/-- C3 witness: a known category with an unlisted subtype falls back to
the category's first subtype, and an unparseable response containing
(only) "jurisprudence" falls back to `"jurisprudence/Arrêt"`. -/
theorem classify_applicability_spec_witness :
    classify_applicability_response ("obligation" ++ "/" ++ "Ordonnance")
      = "obligation" ++ "/"
        ++ (["Loi", "Règlement", "Décret", "Arrêté", "Convention"].headD "")
    ∧ classify_applicability_response "surely Jurisprudence here" = "jurisprudence/Arrêt" := by
  exact ⟨classify_applicability_spec.2.2.2.1 "obligation"
      ["Loi", "Règlement", "Décret", "Arrêté", "Convention"] "Ordonnance"
      (by decide) (by decide) (by decide) (by decide) (by decide),
    classify_applicability_spec.2.2.2.2.1 "surely Jurisprudence here"
      (by decide) (by decide) (by decide) (by decide)⟩

/- ------------------------------------------------------------------ -/
/- llm_service.py / llm_processor.py : summary generation              -/
/- ------------------------------------------------------------------ -/

/-- `LLMService.count_tokens` (llm_service.py:212-216):
`len(text) // 4`. -/
def count_tokens (text : String) : Nat := text.length / 4

/-- Python slice `s[:n]` on strings. -/
def strTake (s : String) (n : Nat) : String := ⟨s.data.take n⟩

/-- The truncation marker appended by `_generate_one_shot_summary`
(llm_processor.py:335). -/
def TRUNCATION_MARKER : String := "\n\n[... DOCUMENT TRONQUÉ POUR LIMITER LE CONTEXTE ...]"

/-- `_generate_one_shot_summary`'s choice of content to send
(llm_processor.py:320-338): the full content unless
`count_tokens(content)` exceeds the one-shot token limit, in which case
the first `limit * 4` characters plus the marker. -/
def one_shot_input (limit : Nat) (content : String) : String :=
  if count_tokens content > limit then strTake content (limit * 4) ++ TRUNCATION_MARKER
  else content

/-- `_summarize_document_content`'s post-processing of the model output
(llm_processor.py:371-377): strip, then hard-truncate to the first 497
characters plus `"..."` when the stripped result exceeds 500
characters. -/
def summarize_post (response : String) : String :=
  let summary := pyStrip response
  if summary.length > 500 then strTake summary 497 ++ "..." else summary

theorem strTake_length (s : String) (n : Nat) : (strTake s n).length = min n s.length := by
  cases s with
  | mk l => simp [strTake, String.length]

set_option maxRecDepth 8000 in
/-- C9, counterexample: the model response is stripped before the
500-character check, so a 501-character response with a trailing space
is NOT hard-truncated to its first 497 characters plus `"..."` — it is
stored as its 500-character stripped form. -/
theorem summary_truncation_claim_cex :
    (String.mk (List.replicate 500 'a' ++ [' '])).length = 501
    ∧ summarize_post (String.mk (List.replicate 500 'a' ++ [' ']))
      = String.mk (List.replicate 500 'a')
    ∧ summarize_post (String.mk (List.replicate 500 'a' ++ [' ']))
      ≠ strTake (String.mk (List.replicate 500 'a' ++ [' '])) 497 ++ "..." := by
  exact ⟨by decide, by decide, by decide⟩

/-- C9 (amended): the stored summary is always at most 500 characters —
the model response is first stripped, and the stripped response is
hard-truncated to its first 497 characters plus `"..."` when longer
than 500, else stored as is; and the document content is sent to the
generation capability in full unless `len(content) // 4` exceeds the
one-shot token limit, in which case exactly the first `limit * 4`
characters plus the fixed truncation marker are sent. -/
theorem summary_truncation_spec :
    (∀ response : String, (summarize_post response).length ≤ 500)
    ∧ (∀ response : String, (pyStrip response).length > 500 →
        summarize_post response = strTake (pyStrip response) 497 ++ "...")
    ∧ (∀ response : String, (pyStrip response).length ≤ 500 →
        summarize_post response = pyStrip response)
    ∧ (∀ (limit : Nat) (content : String), count_tokens content ≤ limit →
        one_shot_input limit content = content)
    ∧ (∀ (limit : Nat) (content : String), count_tokens content > limit →
        one_shot_input limit content
          = strTake content (limit * 4) ++ TRUNCATION_MARKER) := by
  refine ⟨?_, ?_, ?_, ?_, ?_⟩
  · intro response
    by_cases h : (pyStrip response).length > 500
    · rw [show summarize_post response = strTake (pyStrip response) 497 ++ "..." by
        simp only [summarize_post, if_pos h]]
      rw [String.length_append, strTake_length,
        show ("..." : String).length = 3 from rfl]
      omega
    · rw [show summarize_post response = pyStrip response by
        simp only [summarize_post, if_neg h]]
      omega
  · intro response h
    simp only [summarize_post, if_pos h]
  · intro response h
    simp only [summarize_post, if_neg (by omega : ¬(pyStrip response).length > 500)]
  · intro limit content h
    rw [one_shot_input, if_neg (by omega)]
  · intro limit content h
    rw [one_shot_input, if_pos h]

set_option maxRecDepth 8000 in
/-- C9 witness: a 501-character all-letter response is hard-truncated
to 497 characters plus `"..."`, and a 12-character content against a
2-token limit is cut to the first 8 characters plus the marker. -/
theorem summary_truncation_spec_witness :
    summarize_post (String.mk (List.replicate 501 'b'))
      = strTake (pyStrip (String.mk (List.replicate 501 'b'))) 497 ++ "..."
    ∧ one_shot_input 2 "abcdefghijkl" = strTake "abcdefghijkl" (2 * 4) ++ TRUNCATION_MARKER := by
  exact ⟨summary_truncation_spec.2.1 (String.mk (List.replicate 501 'b')) (by decide),
    summary_truncation_spec.2.2.2.2 2 "abcdefghijkl" (by decide)⟩

/- ------------------------------------------------------------------ -/
/- llm_processor.py : process_document                                 -/
/- ------------------------------------------------------------------ -/

/-- The content truncation shared by `_classify_applicability` and
`_classify_themes` (llm_processor.py:386-389): keep the first 10000 and
last 5000 characters with an elision marker when longer than 15000. -/
def classify_truncate (content : String) : String :=
  if content.length > 15000 then
    strTake content 10000 ++ "\n\n[...]\n\n" ++ ⟨content.data.drop (content.length - 5000)⟩
  else content

/-- The single update dict built by `process_document`
(llm_processor.py:292-299): summary, applicability, themes, an explicit
`keywords = None` clear, and `processing_status = 'processed'`. -/
def enrichmentUpdates (summary applicability : String) (themes : List String) : DocUpdates :=
  { summary := some summary
    applicability := some applicability
    themes := some themes
    keywords := some none
    processing_status := some "processed" }

/-- `LLMProcessor.process_document` (llm_processor.py:261-314).
`readFile` models `repo.read_content_from_file` (`none` = missing or
unreadable file); `genSummary`/`genApplic` model the two `llm.generate`
calls on the exact text the code sends (`Except.error` = the call
raises); `themes` is the result of `_classify_themes`, which catches
its own exceptions and never raises.  Failures before the `try` block
return `False` without touching the store; an exception inside it sets
`processing_status = 'error'`; success persists everything in one
`update_document` call. -/
def process_document (store : List StoredDoc) (docId : String)
    (readFile : String → Option String)
    (genSummary : String → Except Unit String)
    (genApplic : String → Except Unit String)
    (themes : List String) (limit : Nat) (now : String) : Bool × List StoredDoc :=
  match store.find? (fun d => d.id == docId) with
  | none => (false, store)
  | some doc =>
    if doc.content = "" then (false, store)
    else
      match readFile doc.content with
      | none => (false, store)
      | some content =>
        if content = "" then (false, store)
        else
          match genSummary (one_shot_input limit content) with
          | .error _ => (false, (update_processing_status store docId "error" now).2)
          | .ok sresp =>
            match genApplic (classify_truncate content) with
            | .error _ => (false, (update_processing_status store docId "error" now).2)
            | .ok aresp =>
              update_document store docId
                (enrichmentUpdates (summarize_post sresp)
                  (classify_applicability_response aresp) themes) now

/-- C2, counterexample: a document whose content path is absent makes
`process_document` return `false` WITHOUT setting
`processing_status = 'error'` — the record (still `pending`) and the
store are completely untouched, contradicting "any single failure …
flips it to error". -/
theorem process_document_error_claim_cex :
    process_document [{ id := "d1", processing_status := "pending" }] "d1"
        (fun _ => none) (fun _ => .ok "s") (fun _ => .ok "x") ["T"] 10000 "t1"
      = (false, [{ id := "d1", processing_status := "pending" }])
    ∧ ({ id := "d1", processing_status := "pending" } : StoredDoc).processing_status
      ≠ "error" := by
  exact ⟨by decide, by decide⟩

/-- C2 (amended): `process_document` produces no partial-success state:
the store either stays exactly as it was (record not found, content
path absent, content file unreadable or empty — all returning `false`
with the prior `processing_status` untouched, NOT set to error), or the
document's `processing_status` is set to `error` by a status-only
update (generation failure inside the `try` block), or all three
enrichment outputs plus `processing_status = 'processed'` (and the
`keywords` clear) are persisted in one single `update_document` call. -/
theorem process_document_spec (store : List StoredDoc) (docId : String)
    (readFile : String → Option String)
    (genSummary genApplic : String → Except Unit String)
    (themes : List String) (limit : Nat) (now : String) :
    (process_document store docId readFile genSummary genApplic themes limit now
        = (false, store)
      ∨ process_document store docId readFile genSummary genApplic themes limit now
        = (false, (update_processing_status store docId "error" now).2)
      ∨ ∃ sresp aresp,
          process_document store docId readFile genSummary genApplic themes limit now
            = update_document store docId
                (enrichmentUpdates (summarize_post sresp)
                  (classify_applicability_response aresp) themes) now)
    ∧ (store.find? (fun d => d.id == docId) = none →
        process_document store docId readFile genSummary genApplic themes limit now
          = (false, store))
    ∧ (∀ doc, store.find? (fun d => d.id == docId) = some doc →
        (doc.content = "" ∨ readFile doc.content = none ∨ readFile doc.content = some "") →
        process_document store docId readFile genSummary genApplic themes limit now
          = (false, store))
    ∧ (∀ doc content, store.find? (fun d => d.id == docId) = some doc →
        doc.content ≠ "" → readFile doc.content = some content → content ≠ "" →
        genSummary (one_shot_input limit content) = .error () →
        process_document store docId readFile genSummary genApplic themes limit now
          = (false, (update_processing_status store docId "error" now).2))
    ∧ (∀ doc content sresp aresp, store.find? (fun d => d.id == docId) = some doc →
        doc.content ≠ "" → readFile doc.content = some content → content ≠ "" →
        genSummary (one_shot_input limit content) = .ok sresp →
        genApplic (classify_truncate content) = .ok aresp →
        process_document store docId readFile genSummary genApplic themes limit now
          = update_document store docId
              (enrichmentUpdates (summarize_post sresp)
                (classify_applicability_response aresp) themes) now) := by
  refine ⟨?_, ?_, ?_, ?_, ?_⟩
  · cases hfind : store.find? (fun d => d.id == docId) with
    | none => exact Or.inl (by simp [process_document, hfind])
    | some doc =>
      by_cases hc : doc.content = ""
      · exact Or.inl (by simp [process_document, hfind, hc])
      · cases hrf : readFile doc.content with
        | none => exact Or.inl (by simp [process_document, hfind, hc, hrf])
        | some content =>
          by_cases hce : content = ""
          · exact Or.inl (by simp [process_document, hfind, hc, hrf, hce])
          · cases hgs : genSummary (one_shot_input limit content) with
            | error e =>
              exact Or.inr (Or.inl (by simp [process_document, hfind, hc, hrf, hce, hgs]))
            | ok sresp =>
              cases hga : genApplic (classify_truncate content) with
              | error e =>
                exact Or.inr (Or.inl (by simp [process_document, hfind, hc, hrf, hce, hgs, hga]))
              | ok aresp =>
                exact Or.inr (Or.inr ⟨sresp, aresp,
                  by simp [process_document, hfind, hc, hrf, hce, hgs, hga]⟩)
  · intro hfind
    simp [process_document, hfind]
  · intro doc hfind hfail
    rcases hfail with hc | hrf | hrf
    · simp [process_document, hfind, hc]
    · by_cases hc : doc.content = ""
      · simp [process_document, hfind, hc]
      · simp [process_document, hfind, hc, hrf]
    · by_cases hc : doc.content = ""
      · simp [process_document, hfind, hc]
      · simp [process_document, hfind, hc, hrf]
  · intro doc content hfind hc hrf hce hgs
    simp [process_document, hfind, hc, hrf, hce, hgs]
  · intro doc content sresp aresp hfind hc hrf hce hgs hga
    simp [process_document, hfind, hc, hrf, hce, hgs, hga]

/-- C2 witness: on a generation failure the document is flipped to
`error` by a status-only update; with both generations succeeding the
three outputs are persisted in one update call. -/
theorem process_document_spec_witness :
    process_document [{ id := "d1", content := "files/d1.txt", processing_status := "pending" }]
        "d1" (fun _ => some "corpus text") (fun _ => .error ()) (fun _ => .ok "obligation/Loi")
        ["T"] 10000 "t1"
      = (false, (update_processing_status
          [{ id := "d1", content := "files/d1.txt", processing_status := "pending" }]
          "d1" "error" "t1").2)
    ∧ process_document [{ id := "d1", content := "files/d1.txt", processing_status := "pending" }]
        "d1" (fun _ => some "corpus text") (fun _ => .ok "Résumé.") (fun _ => .ok "obligation/Loi")
        ["T"] 10000 "t1"
      = update_document
          [{ id := "d1", content := "files/d1.txt", processing_status := "pending" }] "d1"
          (enrichmentUpdates (summarize_post "Résumé.")
            (classify_applicability_response "obligation/Loi") ["T"]) "t1" := by
  exact ⟨(process_document_spec
        [{ id := "d1", content := "files/d1.txt", processing_status := "pending" }]
        "d1" (fun _ => some "corpus text") (fun _ => .error ()) (fun _ => .ok "obligation/Loi")
        ["T"] 10000 "t1").2.2.2.1
      { id := "d1", content := "files/d1.txt", processing_status := "pending" }
      "corpus text" (by decide) (by decide) rfl (by decide) rfl,
    (process_document_spec
        [{ id := "d1", content := "files/d1.txt", processing_status := "pending" }]
        "d1" (fun _ => some "corpus text") (fun _ => .ok "Résumé.") (fun _ => .ok "obligation/Loi")
        ["T"] 10000 "t1").2.2.2.2
      { id := "d1", content := "files/d1.txt", processing_status := "pending" }
      "corpus text" "Résumé." "obligation/Loi" (by decide) (by decide) rfl (by decide) rfl rfl⟩

/- ------------------------------------------------------------------ -/
/- eurlex_scraper.py : scrape_date_range                               -/
/- ------------------------------------------------------------------ -/

/-- The day-by-day `while current_date <= end_date` loop of
`scrape_date_range` (eurlex_scraper.py:148-163), with dates modelled as
day numbers (one unit = one calendar day, `timedelta(days=1)`) and `f`
modelling `scrape_daily_view` at the fixed series/details arguments;
the polite `time.sleep(2)` between days is ignored. -/
def scrapeLoop (f : Nat → List α) (cur last : Nat) : List α :=
  if cur > last then []
  else f cur ++ scrapeLoop f (cur + 1) last
termination_by last + 1 - cur

/-- `EURLexScraper.scrape_date_range` (eurlex_scraper.py:139-165):
`if start_date > end_date: start_date, end_date = end_date, start_date`,
then scrape every day of the inclusive range in order, concatenating
the per-day results. -/
def scrape_date_range (f : Nat → List α) (dateFrom dateTo : Nat) : List α :=
  let p := if dateFrom > dateTo then (dateTo, dateFrom) else (dateFrom, dateTo)
  scrapeLoop f p.1 p.2

/-- Specification-side helper: the concatenation of `f` over `n`
consecutive days starting at `s`, in day order. -/
def daysConcat (f : Nat → List α) (s : Nat) : Nat → List α
  | 0 => []
  | n + 1 => f s ++ daysConcat f (s + 1) n

theorem scrapeLoop_eq (f : Nat → List α) :
    ∀ (n cur last : Nat), last + 1 - cur = n → scrapeLoop f cur last = daysConcat f cur n := by
  intro n
  induction n with
  | zero =>
    intro cur last h
    rw [scrapeLoop, if_pos (by omega : cur > last)]
    rfl
  | succ k ih =>
    intro cur last h
    rw [scrapeLoop, if_neg (by omega : ¬cur > last), daysConcat, ih (cur + 1) last (by omega)]

/-- C10: when `date_from` is later than `date_to`, `scrape_date_range`
swaps the bounds and scrapes the inclusive calendar range from the
earlier to the later date — one `scrape_daily_view` invocation per day,
results concatenated in day order — identical to calling it with the
bounds in order; it neither returns empty nor raises. -/
theorem scrape_date_range_swap (f : Nat → List α) (dateFrom dateTo : Nat)
    (h : dateTo < dateFrom) :
    scrape_date_range f dateFrom dateTo = daysConcat f dateTo (dateFrom + 1 - dateTo)
    ∧ scrape_date_range f dateFrom dateTo = scrape_date_range f dateTo dateFrom := by
  have h1 : scrape_date_range f dateFrom dateTo = scrapeLoop f dateTo dateFrom := by
    simp only [scrape_date_range, if_pos h]
  have h2 : scrape_date_range f dateTo dateFrom = scrapeLoop f dateTo dateFrom := by
    simp only [scrape_date_range, if_neg (by omega : ¬dateTo > dateFrom)]
  rw [h1, h2, scrapeLoop_eq f (dateFrom + 1 - dateTo) dateTo dateFrom rfl]
  exact ⟨rfl, rfl⟩

/-- C10 witness: scraping `3 → 1` equals scraping days 1, 2, 3 in
order. -/
theorem scrape_date_range_swap_witness :
    scrape_date_range (fun n => [n]) 3 1 = daysConcat (fun n => [n]) 1 (3 + 1 - 1)
    ∧ scrape_date_range (fun n => [n]) 3 1 = scrape_date_range (fun n => [n]) 1 3 :=
  scrape_date_range_swap (fun n => [n]) 3 1 (by decide)
